import Mathlib

/-!
Verification development for the MoQT subscribe-window and send-stream-map
core (`moqt_subscribe_windows.cc`).

The embedding is a direct shallow translation of the source:

* `Location` is the three-field position type.  Its definition and comparison
  operators live in `moqt_messages.h`, which is not part of the sources here;
  they are modelled from the spec (lexicographic order on
  `(group, subgroup, object)`), as is the sentinel Location produced by the
  group-granularity `TruncateEnd` (group-maximal: all finer fields at the
  maximal representable 64-bit value).
* `std::map` (two levels: group to subgroup to stream id) is modelled as a
  key-sorted association list with unique keys; `lookupA`, `insertSorted`,
  `insertIfAbsent`, `updateKey` and `eraseKey` mirror `find`, `insert`,
  `try_emplace` (which never overwrites an existing entry) and `erase`.
* `QUIC_BUG` / `QUICHE_NOTREACHED` / `QUICHE_DCHECK` reports are modelled as
  an extra `Bool` result (`true` when the fatal-invariant channel fired);
  as in the source, firing the channel does not by itself abort the
  surrounding operation.
* Machine integers are `Nat`; none of the modelled operations perform
  arithmetic, so no overflow reduction is needed, and the maximal
  representable value appears only as the explicit constant `UINT64_MAX`.
-/

namespace Moqt

/-- Modelled from the spec: `Location` is declared in `moqt_messages.h`,
which is not under the provided sources.  The spec fixes it as a triple of
unsigned 64-bit fields `(group, subgroup, object)`. -/
structure Location where
  group : Nat
  subgroup : Nat
  object : Nat
  deriving DecidableEq, Repr

/-- The maximal representable unsigned 64-bit value (`UINT64_MAX`). -/
def UINT64_MAX : Nat := 18446744073709551615

/-- Modelled from the spec: the comparison operators of `Location` are
declared in `moqt_messages.h`, not under the provided sources; the spec fixes
the order as lexicographic with precedence group, then subgroup, then
object. -/
def locLt (a b : Location) : Bool :=
  a.group < b.group ||
    (a.group == b.group &&
      (a.subgroup < b.subgroup ||
        (a.subgroup == b.subgroup && a.object < b.object)))

/-- `a ≤ b` in the lexicographic Location order: `a < b` or `a = b`. -/
def locLe (a b : Location) : Bool := locLt a b || a == b

/-- The two forwarding-preference variants used by this core. -/
inductive MoqtForwardingPreference where
  | kSubgroup
  | kDatagram
  deriving DecidableEq, Repr

/-- `ReducedSequenceIndex::ReducedSequenceIndex` followed by `.sequence()`:
projects a full Location to the granularity at which streams are bound. -/
def ReducedSequenceIndex (sequence : Location)
    (preference : MoqtForwardingPreference) : Location :=
  match preference with
  | .kSubgroup => ⟨sequence.group, sequence.subgroup, 0⟩
  | .kDatagram => ⟨sequence.group, 0, sequence.object⟩

/-- `std::map::find`: first value stored under the key, if any. -/
def lookupA {α : Type} : List (Nat × α) → Nat → Option α
  | [], _ => none
  | (k, v) :: rest, key => if k == key then some v else lookupA rest key

/-- Key-ordered insertion used to model `std::map` placement; an entry whose
key is already present is kept unchanged (`insert` / `try_emplace` never
overwrite). -/
def insertSorted {α : Type} (k : Nat) (v : α) : List (Nat × α) → List (Nat × α)
  | [] => [(k, v)]
  | (k1, v1) :: rest =>
    if k < k1 then (k, v) :: (k1, v1) :: rest
    else if k == k1 then (k1, v1) :: rest
    else (k1, v1) :: insertSorted k v rest

/-- `std::map::insert` / `try_emplace` semantics: no change when the key is
already present, sorted insertion otherwise. -/
def insertIfAbsent {α : Type} (k : Nat) (v : α) (l : List (Nat × α)) :
    List (Nat × α) :=
  match lookupA l k with
  | some _ => l
  | none => insertSorted k v l

/-- Replace the value stored under a key (no change if the key is absent). -/
def updateKey {α : Type} (k : Nat) (v : α) : List (Nat × α) → List (Nat × α)
  | [] => []
  | (k1, v1) :: rest =>
    if k == k1 then (k1, v) :: rest else (k1, v1) :: updateKey k v rest

/-- `std::map::erase` of a key. -/
def eraseKey {α : Type} (k : Nat) : List (Nat × α) → List (Nat × α)
  | [] => []
  | (k1, v1) :: rest => if k == k1 then rest else (k1, v1) :: eraseKey k rest

/-- `SendStreamMap`: forwarding preference fixed at construction, plus the
two-level table group to (subgroup to stream id).  Stream ids are `Nat`. -/
structure SendStreamMap where
  forwarding_preference : MoqtForwardingPreference
  send_streams : List (Nat × List (Nat × Nat)) := []
  deriving DecidableEq, Repr

/-- `SendStreamMap::GetStreamForSequence` (the returned value; the
`QUICHE_DCHECK` on the forwarding preference is modelled separately by
`getStreamDCheckViolated`, since in the source it does not change the
lookup that follows it). -/
def GetStreamForSequence (m : SendStreamMap) (sequence : Location) :
    Option Nat :=
  let index := ReducedSequenceIndex sequence m.forwarding_preference
  match lookupA m.send_streams index.group with
  | none => none
  | some group_map => lookupA group_map index.subgroup

/-- The `QUICHE_DCHECK(forwarding_preference_ == kSubgroup)` at the top of
`GetStreamForSequence`: `true` exactly when the debug check fires. -/
def getStreamDCheckViolated (m : SendStreamMap) : Bool :=
  !(m.forwarding_preference == MoqtForwardingPreference.kSubgroup)

/-- `SendStreamMap::AddStream`: ensure the group entry exists, `try_emplace`
the subgroup entry, and fire `QUIC_BUG_IF` (the `Bool` result) when the
subgroup entry already existed. -/
def AddStream (m : SendStreamMap) (sequence : Location) (stream_id : Nat) :
    SendStreamMap × Bool :=
  let index := ReducedSequenceIndex sequence m.forwarding_preference
  let streams := insertIfAbsent index.group [] m.send_streams
  let group_map := (lookupA streams index.group).getD []
  let success := (lookupA group_map index.subgroup).isNone
  ({ m with send_streams :=
      (updateKey index.group
        (insertIfAbsent index.subgroup stream_id group_map) streams) },
   !success)

/-- `SendStreamMap::RemoveStream`: erase the entry for the reduced key; the
`Bool` result is `true` when a `QUICHE_NOTREACHED` fired (missing group,
missing subgroup, or mismatched stream id), in which case the map is left
unchanged. -/
def RemoveStream (m : SendStreamMap) (sequence : Location) (stream_id : Nat) :
    SendStreamMap × Bool :=
  let index := ReducedSequenceIndex sequence m.forwarding_preference
  match lookupA m.send_streams index.group with
  | none => (m, true)
  | some group_map =>
    match lookupA group_map index.subgroup with
    | none => (m, true)
    | some sid =>
      if sid != stream_id then (m, true)
      else
        ({ m with send_streams :=
            (updateKey index.group (eraseKey index.subgroup group_map)
              m.send_streams) },
         false)

/-- `SendStreamMap::GetStreamsForGroup`: all stream ids recorded under the
group, in table order; empty when the group is unknown. -/
def GetStreamsForGroup (m : SendStreamMap) (group_id : Nat) : List Nat :=
  match lookupA m.send_streams group_id with
  | none => []
  | some group_map => group_map.map Prod.snd

/-- The nested lookup: the stream id recorded under `(g, sg)`, if any.
This is the "recorded entry" notion the spec's table invariants refer to. -/
def recordedAt (m : SendStreamMap) (g sg : Nat) : Option Nat :=
  (lookupA m.send_streams g).bind fun group_map => lookupA group_map sg

/-- Well-formedness of an association list: keys are pairwise distinct
(always true of states built by the map operations, which model
`std::map`). -/
abbrev keysNodup {α : Type} (l : List (Nat × α)) : Prop :=
  (l.map Prod.fst).Nodup

/-- `SubscribeWindow`: inclusive `[start_, end_]` bounds. -/
structure SubscribeWindow where
  start_ : Location
  end_ : Location
  deriving DecidableEq, Repr

/-- `SubscribeWindow::TruncateStart`. -/
def TruncateStart (w : SubscribeWindow) (start : Location) :
    SubscribeWindow × Bool :=
  if locLt start w.start_ then (w, false)
  else ({ w with start_ := start }, true)

/-- `SubscribeWindow::TruncateEnd(uint64_t end_group)`.  The new end
`Location(end_group, UINT64_MAX)` is modelled from the spec (the two-argument
constructor is declared in `moqt_messages.h`, not under the provided
sources): the maximal Location of the group, all finer fields at the maximal
representable value. -/
def TruncateEndGroup (w : SubscribeWindow) (end_group : Nat) :
    SubscribeWindow × Bool :=
  if w.end_.group < end_group then (w, false)
  else ({ w with end_ := ⟨end_group, UINT64_MAX, UINT64_MAX⟩ }, true)

/-- `SubscribeWindow::TruncateEnd(Location largest_id)`. -/
def TruncateEndLoc (w : SubscribeWindow) (largest_id : Location) :
    SubscribeWindow × Bool :=
  if locLt w.end_ largest_id then (w, false)
  else ({ w with end_ := largest_id }, true)

/-- One truncation call, for reasoning about call sequences. -/
inductive TruncateOp where
  | tStart (s : Location)
  | tEndGroup (g : Nat)
  | tEndLoc (e : Location)
  deriving DecidableEq, Repr

/-- Apply one truncation call. -/
def applyOp (w : SubscribeWindow) : TruncateOp → SubscribeWindow × Bool
  | .tStart s => TruncateStart w s
  | .tEndGroup g => TruncateEndGroup w g
  | .tEndLoc e => TruncateEndLoc w e

/-- Run a sequence of truncation calls, keeping the final window. -/
def runOps (w : SubscribeWindow) (ops : List TruncateOp) : SubscribeWindow :=
  ops.foldl (fun w1 op => (applyOp w1 op).1) w

theorem locLt_iff (a b : Location) : locLt a b = true ↔
    (a.group < b.group ∨ (a.group = b.group ∧ (a.subgroup < b.subgroup ∨
      (a.subgroup = b.subgroup ∧ a.object < b.object)))) := by
  simp [locLt]

theorem locLe_iff (a b : Location) : locLe a b = true ↔
    (locLt a b = true ∨ a = b) := by
  simp [locLe]

theorem not_locLt_iff (a b : Location) :
    locLt b a = false ↔ locLe a b = true := by
  obtain ⟨g1, s1, o1⟩ := a
  obtain ⟨g2, s2, o2⟩ := b
  simp [locLt, locLe, Location.mk.injEq]
  omega

theorem locLe_refl (a : Location) : locLe a a = true := by
  simp [locLe]

theorem locLe_trans {a b c : Location} (h1 : locLe a b = true)
    (h2 : locLe b c = true) : locLe a c = true := by
  obtain ⟨g1, s1, o1⟩ := a
  obtain ⟨g2, s2, o2⟩ := b
  obtain ⟨g3, s3, o3⟩ := c
  simp [locLt, locLe, Location.mk.injEq] at h1 h2 ⊢
  omega

theorem locLe_group_le {a b : Location} (h : locLe a b = true) :
    a.group ≤ b.group := by
  obtain ⟨g1, s1, o1⟩ := a
  obtain ⟨g2, s2, o2⟩ := b
  simp [locLt, locLe, Location.mk.injEq] at h ⊢
  omega

theorem lookupA_insertSorted_self {α : Type} (k : Nat) (v : α)
    (l : List (Nat × α)) (h : lookupA l k = none) :
    lookupA (insertSorted k v l) k = some v := by
  induction l with
  | nil => simp [insertSorted, lookupA]
  | cons hd tl ih =>
    obtain ⟨k1, v1⟩ := hd
    rw [lookupA] at h
    by_cases hk : k1 = k
    · simp [hk] at h
    · rw [insertSorted]
      by_cases hlt : k < k1
      · simp [hlt, lookupA]
      · simp [hk] at h
        have hne : (k == k1) = false := by
          simp
          omega
        simp [hlt, hne, lookupA, hk, ih h]

theorem lookupA_insertSorted_ne {α : Type} (k k2 : Nat) (v : α)
    (l : List (Nat × α)) (h : k2 ≠ k) :
    lookupA (insertSorted k v l) k2 = lookupA l k2 := by
  induction l with
  | nil =>
    simp [insertSorted, lookupA]
    omega
  | cons hd tl ih =>
    obtain ⟨k1, v1⟩ := hd
    rw [insertSorted]
    by_cases hlt : k < k1
    · have hne : (k == k2) = false := by
        simp
        omega
      simp [hlt, lookupA, hne]
    · by_cases hk : k = k1
      · simp [hlt, hk]
      · have hne : (k == k1) = false := by simp [hk]
        simp [hlt, hne, lookupA, ih]

theorem updateKey_absent {α : Type} (k : Nat) (v : α) (l : List (Nat × α))
    (h : lookupA l k = none) : updateKey k v l = l := by
  induction l with
  | nil => simp [updateKey]
  | cons hd tl ih =>
    obtain ⟨k1, v1⟩ := hd
    rw [lookupA] at h
    by_cases hk : k1 = k
    · simp [hk] at h
    · have hne : (k == k1) = false := by
        simp
        omega
      simp [hk] at h
      simp [updateKey, hne, ih h]

theorem updateKey_self_value {α : Type} (k : Nat) (w : α) (l : List (Nat × α))
    (h : lookupA l k = some w) : updateKey k w l = l := by
  induction l with
  | nil => simp [lookupA] at h
  | cons hd tl ih =>
    obtain ⟨k1, v1⟩ := hd
    rw [lookupA] at h
    by_cases hk : k1 = k
    · simp [hk] at h
      simp [updateKey, hk, h]
    · have hne : (k == k1) = false := by
        simp
        omega
      simp [hk] at h
      simp [updateKey, hne, ih h]

theorem lookupA_updateKey_self {α : Type} (k : Nat) (v w : α)
    (l : List (Nat × α)) (h : lookupA l k = some w) :
    lookupA (updateKey k v l) k = some v := by
  induction l with
  | nil => simp [lookupA] at h
  | cons hd tl ih =>
    obtain ⟨k1, v1⟩ := hd
    rw [lookupA] at h
    by_cases hk : k1 = k
    · simp [updateKey, hk, lookupA]
    · have hne : (k == k1) = false := by
        simp
        omega
      simp [hk] at h
      simp [updateKey, hne, lookupA, hk, ih h]

theorem lookupA_updateKey_ne {α : Type} (k k2 : Nat) (v : α)
    (l : List (Nat × α)) (h : k2 ≠ k) :
    lookupA (updateKey k v l) k2 = lookupA l k2 := by
  induction l with
  | nil => simp [updateKey]
  | cons hd tl ih =>
    obtain ⟨k1, v1⟩ := hd
    rw [updateKey]
    by_cases hk : k = k1
    · have hne : (k1 == k2) = false := by
        simp
        omega
      simp [hk, lookupA, hne]
    · have hne : (k == k1) = false := by simp [hk]
      simp [hne, lookupA, ih]

theorem eraseKey_insertSorted {α : Type} (k : Nat) (v : α)
    (l : List (Nat × α)) (h : lookupA l k = none) :
    eraseKey k (insertSorted k v l) = l := by
  induction l with
  | nil => simp [insertSorted, eraseKey]
  | cons hd tl ih =>
    obtain ⟨k1, v1⟩ := hd
    rw [lookupA] at h
    by_cases hk : k1 = k
    · simp [hk] at h
    · simp [hk] at h
      rw [insertSorted]
      by_cases hlt : k < k1
      · simp [hlt, eraseKey]
      · have hne : (k == k1) = false := by
          simp
          omega
        simp [hlt, hne, eraseKey, ih h]

theorem lookupA_mem {α : Type} {k : Nat} {v : α} {l : List (Nat × α)}
    (hn : keysNodup l) (hm : (k, v) ∈ l) : lookupA l k = some v := by
  induction l with
  | nil => simp at hm
  | cons hd tl ih =>
    obtain ⟨k1, v1⟩ := hd
    rw [keysNodup, List.map_cons, List.nodup_cons] at hn
    obtain ⟨hk1, htl⟩ := hn
    rcases List.mem_cons.mp hm with heq | htl2
    · cases heq
      simp [lookupA]
    · have hkin : k ∈ tl.map Prod.fst :=
        List.mem_map.mpr ⟨(k, v), htl2, rfl⟩
      have hne : (k1 == k) = false := by
        simp
        intro hkk
        exact hk1 (hkk ▸ hkin)
      rw [lookupA, hne]
      simp
      exact ih htl htl2

theorem mem_of_lookupA {α : Type} {k : Nat} {v : α} {l : List (Nat × α)}
    (h : lookupA l k = some v) : (k, v) ∈ l := by
  induction l with
  | nil => simp [lookupA] at h
  | cons hd tl ih =>
    obtain ⟨k1, v1⟩ := hd
    rw [lookupA] at h
    by_cases hk : k1 = k
    · simp [hk] at h
      simp [hk, h]
    · have hne : (k1 == k) = false := by simp [hk]
      simp [hne] at h
      simp [ih h]

theorem recordedAt_none_inner (m : SendStreamMap) (g sg : Nat)
    (h : recordedAt m g sg = none) :
    lookupA ((lookupA m.send_streams g).getD []) sg = none := by
  rw [recordedAt] at h
  cases hg : lookupA m.send_streams g with
  | none => simp [lookupA]
  | some grp =>
    rw [hg] at h
    simpa using h

theorem AddStream_pref (m : SendStreamMap) (sequence : Location) (sid : Nat) :
    (AddStream m sequence sid).1.forwarding_preference =
      m.forwarding_preference := rfl

theorem AddStream_absent (m : SendStreamMap) (sequence : Location) (sid : Nat)
    (g sg ob : Nat)
    (hidx : ReducedSequenceIndex sequence m.forwarding_preference = ⟨g, sg, ob⟩)
    (h : recordedAt m g sg = none) :
    AddStream m sequence sid =
      ({ m with send_streams :=
          (updateKey g
            (insertSorted sg sid ((lookupA m.send_streams g).getD []))
            (insertIfAbsent g [] m.send_streams)) }, false) := by
  have hinner := recordedAt_none_inner m g sg h
  rw [AddStream, hidx]
  cases hg : lookupA m.send_streams g with
  | none =>
    rw [hg] at hinner
    simp only [insertIfAbsent, hg]
    rw [lookupA_insertSorted_self g [] _ hg]
    simp only [Option.getD_some, Option.getD_none, hg]
    simp [lookupA, insertIfAbsent]
  | some grp =>
    rw [hg] at hinner
    simp only [Option.getD_some] at hinner
    simp only [insertIfAbsent, hg]
    simp [hinner]

theorem AddStream_present (m : SendStreamMap) (sequence : Location) (sid : Nat)
    (g sg ob w : Nat)
    (hidx : ReducedSequenceIndex sequence m.forwarding_preference = ⟨g, sg, ob⟩)
    (h : recordedAt m g sg = some w) :
    AddStream m sequence sid = (m, true) := by
  rw [recordedAt] at h
  cases hg : lookupA m.send_streams g with
  | none =>
    rw [hg] at h
    simp at h
  | some grp =>
    rw [hg] at h
    simp only [Option.some_bind] at h
    rw [AddStream, hidx]
    simp only [insertIfAbsent, hg]
    simp only [Option.getD_some]
    simp only [h, Option.isNone_some, Bool.not_false]
    rw [updateKey_self_value g grp _ hg]

theorem AddStream_flag_iff (m : SendStreamMap) (sequence : Location)
    (sid : Nat) (g sg ob : Nat)
    (hidx : ReducedSequenceIndex sequence m.forwarding_preference = ⟨g, sg, ob⟩) :
    (AddStream m sequence sid).2 = false ↔ recordedAt m g sg = none := by
  cases h : recordedAt m g sg with
  | none => simp [AddStream_absent m sequence sid g sg ob hidx h]
  | some w => simp [AddStream_present m sequence sid g sg ob w hidx h]

theorem GetStreamForSequence_eq_recordedAt (m : SendStreamMap)
    (sequence : Location) :
    GetStreamForSequence m sequence =
      recordedAt m
        (ReducedSequenceIndex sequence m.forwarding_preference).group
        (ReducedSequenceIndex sequence m.forwarding_preference).subgroup := by
  rw [GetStreamForSequence, recordedAt]
  cases hg : lookupA m.send_streams
      (ReducedSequenceIndex sequence m.forwarding_preference).group <;>
    simp [hg]

theorem RemoveStream_missing (m : SendStreamMap) (sequence : Location)
    (sid : Nat) (g sg ob : Nat)
    (hidx : ReducedSequenceIndex sequence m.forwarding_preference = ⟨g, sg, ob⟩)
    (h : recordedAt m g sg = none) :
    RemoveStream m sequence sid = (m, true) := by
  rw [recordedAt] at h
  cases hg : lookupA m.send_streams g with
  | none =>
    rw [RemoveStream, hidx]
    simp [hg]
  | some grp =>
    rw [hg] at h
    simp only [Option.some_bind] at h
    rw [RemoveStream, hidx]
    simp [hg, h]

theorem RemoveStream_mismatch (m : SendStreamMap) (sequence : Location)
    (sid : Nat) (g sg ob w : Nat)
    (hidx : ReducedSequenceIndex sequence m.forwarding_preference = ⟨g, sg, ob⟩)
    (h : recordedAt m g sg = some w) (hne : w ≠ sid) :
    RemoveStream m sequence sid = (m, true) := by
  rw [recordedAt] at h
  cases hg : lookupA m.send_streams g with
  | none =>
    rw [hg] at h
    simp at h
  | some grp =>
    rw [hg] at h
    simp only [Option.some_bind] at h
    rw [RemoveStream, hidx]
    simp [hg, h, hne]

theorem RemoveStream_found (m : SendStreamMap) (sequence : Location)
    (sid : Nat) (g sg ob : Nat) (grp : List (Nat × Nat))
    (hidx : ReducedSequenceIndex sequence m.forwarding_preference = ⟨g, sg, ob⟩)
    (hg : lookupA m.send_streams g = some grp)
    (hsg : lookupA grp sg = some sid) :
    RemoveStream m sequence sid =
      ({ m with send_streams :=
          (updateKey g (eraseKey sg grp) m.send_streams) }, false) := by
  rw [RemoveStream, hidx]
  simp [hg, hsg]

theorem locLt_eq_not_locLe (a b : Location) : locLt b a = !(locLe a b) := by
  cases h : locLe a b
  · cases h2 : locLt b a
    · rw [not_locLt_iff] at h2
      rw [h2] at h
      cases h
    · rfl
  · rw [(not_locLt_iff a b).mpr h]
    rfl

theorem locLe_group_max (L : Location) (g : Nat) (h1 : L.group = g)
    (h2 : L.subgroup ≤ UINT64_MAX) (h3 : L.object ≤ UINT64_MAX) :
    locLe L ⟨g, UINT64_MAX, UINT64_MAX⟩ = true := by
  obtain ⟨lg, ls, lo⟩ := L
  simp only at h1 h2 h3
  simp [locLe, locLt, Location.mk.injEq]
  omega

theorem applyOp_start_mono (w : SubscribeWindow) (op : TruncateOp) :
    locLe w.start_ (applyOp w op).1.start_ = true := by
  cases op with
  | tStart s =>
    cases h : locLt s w.start_
    · simp [applyOp, TruncateStart, h]
      exact (not_locLt_iff w.start_ s).mp h
    · simp [applyOp, TruncateStart, h, locLe_refl]
  | tEndGroup g =>
    by_cases h : w.end_.group < g <;> simp [applyOp, TruncateEndGroup, h, locLe_refl]
  | tEndLoc e =>
    cases h : locLt w.end_ e <;> simp [applyOp, TruncateEndLoc, h, locLe_refl]

theorem applyOp_endgroup_mono (w : SubscribeWindow) (op : TruncateOp) :
    (applyOp w op).1.end_.group ≤ w.end_.group := by
  cases op with
  | tStart s =>
    cases h : locLt s w.start_ <;> simp [applyOp, TruncateStart, h]
  | tEndGroup g =>
    by_cases h : w.end_.group < g <;> simp [applyOp, TruncateEndGroup, h]
    omega
  | tEndLoc e =>
    cases h : locLt w.end_ e <;> simp [applyOp, TruncateEndLoc, h]
    exact locLe_group_le ((not_locLt_iff e w.end_).mp h)

theorem applyOp_fail_unchanged (w : SubscribeWindow) (op : TruncateOp)
    (h : (applyOp w op).2 = false) : (applyOp w op).1 = w := by
  cases op with
  | tStart s =>
    cases h2 : locLt s w.start_ <;> simp [applyOp, TruncateStart, h2] <;>
      simp [applyOp, TruncateStart, h2] at h
  | tEndGroup g =>
    by_cases h2 : w.end_.group < g <;> simp [applyOp, TruncateEndGroup, h2] <;>
      simp [applyOp, TruncateEndGroup, h2] at h
  | tEndLoc e =>
    cases h2 : locLt w.end_ e <;> simp [applyOp, TruncateEndLoc, h2] <;>
      simp [applyOp, TruncateEndLoc, h2] at h

theorem runOps_nil (w : SubscribeWindow) : runOps w [] = w := rfl

theorem runOps_cons (w : SubscribeWindow) (op : TruncateOp)
    (rest : List TruncateOp) :
    runOps w (op :: rest) = runOps (applyOp w op).1 rest := rfl

theorem runOps_start_mono (w : SubscribeWindow) (ops : List TruncateOp) :
    locLe w.start_ (runOps w ops).start_ = true := by
  induction ops generalizing w with
  | nil => exact locLe_refl _
  | cons op rest ih =>
    rw [runOps_cons]
    exact locLe_trans (applyOp_start_mono w op) (ih _)

theorem runOps_endgroup_mono (w : SubscribeWindow) (ops : List TruncateOp) :
    (runOps w ops).end_.group ≤ w.end_.group := by
  induction ops generalizing w with
  | nil => exact Nat.le_refl _
  | cons op rest ih =>
    rw [runOps_cons]
    exact Nat.le_trans (ih _) (applyOp_endgroup_mono w op)

/-- Claim C8: `ReducedSequenceIndex` is a total pure projection: under
`kSubgroup` it yields `(group, subgroup, 0)` (so Locations equal on
`(group, subgroup)` reduce identically), and under `kDatagram` it yields
`(group, 0, object)` (so Locations equal on `(group, object)` reduce
identically). -/
theorem C8_reduction_purity (L L2 : Location) :
    ReducedSequenceIndex L MoqtForwardingPreference.kSubgroup =
      ⟨L.group, L.subgroup, 0⟩ ∧
    ReducedSequenceIndex L MoqtForwardingPreference.kDatagram =
      ⟨L.group, 0, L.object⟩ ∧
    (L.group = L2.group → L.subgroup = L2.subgroup →
      ReducedSequenceIndex L MoqtForwardingPreference.kSubgroup =
        ReducedSequenceIndex L2 MoqtForwardingPreference.kSubgroup) ∧
    (L.group = L2.group → L.object = L2.object →
      ReducedSequenceIndex L MoqtForwardingPreference.kDatagram =
        ReducedSequenceIndex L2 MoqtForwardingPreference.kDatagram) := by
  refine ⟨rfl, rfl, ?_, ?_⟩ <;> intro h1 h2 <;>
    simp [ReducedSequenceIndex, h1, h2]

/-- Witness for C8 at concrete inputs: Locations `(1,2,3)` and `(1,2,9)`
differ only in the object field and reduce identically under `kSubgroup`. -/
theorem C8_reduction_purity_witness :
    ReducedSequenceIndex ⟨1, 2, 3⟩ MoqtForwardingPreference.kSubgroup =
      ReducedSequenceIndex ⟨1, 2, 9⟩ MoqtForwardingPreference.kSubgroup :=
  (C8_reduction_purity ⟨1, 2, 3⟩ ⟨1, 2, 9⟩).2.2.1 rfl rfl

/-- Claim C10: `TruncateStart(new_start)` succeeds and replaces `start` with
`new_start` exactly when `new_start ≥ start`, else returns false leaving the
window unchanged; the exact-Location `TruncateEnd(new_end)` succeeds and
replaces `end` with `new_end` exactly when `new_end ≤ end`, else returns
false leaving the window unchanged. -/
theorem C10_truncate_exact (w : SubscribeWindow) (s e : Location) :
    ((TruncateStart w s).2 = true ↔ locLe w.start_ s = true) ∧
    (locLe w.start_ s = true →
      (TruncateStart w s).1 = { w with start_ := s }) ∧
    ((TruncateStart w s).2 = false → (TruncateStart w s).1 = w) ∧
    ((TruncateEndLoc w e).2 = true ↔ locLe e w.end_ = true) ∧
    (locLe e w.end_ = true → (TruncateEndLoc w e).1 = { w with end_ := e }) ∧
    ((TruncateEndLoc w e).2 = false → (TruncateEndLoc w e).1 = w) := by
  cases h1 : locLe w.start_ s <;> cases h2 : locLe e w.end_ <;>
    simp [TruncateStart, TruncateEndLoc, locLt_eq_not_locLe, h1, h2]

/-- Witness for C10 at a concrete window `[(1,0,0), (5,0,0)]` and inputs
`(2,0,0)` (valid new start) and `(4,0,0)` (valid new end). -/
theorem C10_truncate_exact_witness :
    (TruncateStart ⟨⟨1, 0, 0⟩, ⟨5, 0, 0⟩⟩ ⟨2, 0, 0⟩).1 =
      ⟨⟨2, 0, 0⟩, ⟨5, 0, 0⟩⟩ ∧
    (TruncateEndLoc ⟨⟨1, 0, 0⟩, ⟨5, 0, 0⟩⟩ ⟨4, 0, 0⟩).1 =
      ⟨⟨1, 0, 0⟩, ⟨4, 0, 0⟩⟩ :=
  ⟨(C10_truncate_exact ⟨⟨1, 0, 0⟩, ⟨5, 0, 0⟩⟩ ⟨2, 0, 0⟩ ⟨4, 0, 0⟩).2.1
      (by decide),
   (C10_truncate_exact ⟨⟨1, 0, 0⟩, ⟨5, 0, 0⟩⟩ ⟨2, 0, 0⟩ ⟨4, 0, 0⟩).2.2.2.2.1
      (by decide)⟩

/-- Claim C3: the group-granularity `TruncateEnd(end_group)` succeeds exactly
when `end_group ≤ end.group`; on success it sets `end` to the maximal
Location of that group (subgroup and object at the maximal representable
value) leaving `start` untouched; on failure it returns false and leaves the
window unchanged. -/
theorem C3_truncate_end_group (w : SubscribeWindow) (g : Nat) (L : Location) :
    ((TruncateEndGroup w g).2 = true ↔ g ≤ w.end_.group) ∧
    (g ≤ w.end_.group →
      (TruncateEndGroup w g).1 =
        { w with end_ := ⟨g, UINT64_MAX, UINT64_MAX⟩ }) ∧
    (¬ g ≤ w.end_.group →
      (TruncateEndGroup w g).2 = false ∧ (TruncateEndGroup w g).1 = w) ∧
    (L.group = g → L.subgroup ≤ UINT64_MAX → L.object ≤ UINT64_MAX →
      locLe L ⟨g, UINT64_MAX, UINT64_MAX⟩ = true) := by
  refine ⟨?_, ?_, ?_, fun h1 h2 h3 => locLe_group_max L g h1 h2 h3⟩ <;>
    by_cases h : w.end_.group < g <;> simp [TruncateEndGroup, h] <;> omega

/-- Witness for C3 at a concrete window ending in group 10: truncating to
group 5 succeeds and yields the group-5 maximal end. -/
theorem C3_truncate_end_group_witness :
    (TruncateEndGroup ⟨⟨0, 0, 0⟩, ⟨10, 4, 4⟩⟩ 5).1 =
      ⟨⟨0, 0, 0⟩, ⟨5, UINT64_MAX, UINT64_MAX⟩⟩ ∧
    locLe ⟨5, 3, 9⟩ ⟨5, UINT64_MAX, UINT64_MAX⟩ = true :=
  ⟨(C3_truncate_end_group ⟨⟨0, 0, 0⟩, ⟨10, 4, 4⟩⟩ 5 ⟨5, 3, 9⟩).2.1
      (by decide),
   (C3_truncate_end_group ⟨⟨0, 0, 0⟩, ⟨10, 4, 4⟩⟩ 5 ⟨5, 3, 9⟩).2.2.2
      rfl (by decide) (by decide)⟩

/-- Claim C1, as stated, is false on the code: starting from the valid
window `[(0,0,0), (1,0,0)]`, `TruncateStart((2,0,0))` succeeds (the code
compares the new start only against the old start, never against the end)
and leaves `start = (2,0,0) > end = (1,0,0)`. -/
theorem C1_counterexample :
    locLe (⟨⟨0, 0, 0⟩, ⟨1, 0, 0⟩⟩ : SubscribeWindow).start_
        (⟨⟨0, 0, 0⟩, ⟨1, 0, 0⟩⟩ : SubscribeWindow).end_ = true ∧
    (TruncateStart ⟨⟨0, 0, 0⟩, ⟨1, 0, 0⟩⟩ ⟨2, 0, 0⟩).2 = true ∧
    locLe (TruncateStart ⟨⟨0, 0, 0⟩, ⟨1, 0, 0⟩⟩ ⟨2, 0, 0⟩).1.start_
        (TruncateStart ⟨⟨0, 0, 0⟩, ⟨1, 0, 0⟩⟩ ⟨2, 0, 0⟩).1.end_ = false := by
  decide

/-- Claim C1 (amended): each truncation call compares the new value only
against the bound it replaces, so `start ≤ end` is preserved by every failed
call and by every successful call whose new bound does not cross the
opposite bound (`new_start ≤ end` for `TruncateStart`; `start ≤ new_end` for
the exact `TruncateEnd`; `start ≤ (end_group, MAX, MAX)` for the
group-granularity `TruncateEnd`). -/
theorem C1_amended (w : SubscribeWindow) (s e : Location) (g : Nat)
    (hinv : locLe w.start_ w.end_ = true) :
    (((TruncateStart w s).2 = false ∨ locLe s w.end_ = true) →
      locLe (TruncateStart w s).1.start_ (TruncateStart w s).1.end_ = true) ∧
    (((TruncateEndGroup w g).2 = false ∨
        locLe w.start_ ⟨g, UINT64_MAX, UINT64_MAX⟩ = true) →
      locLe (TruncateEndGroup w g).1.start_
        (TruncateEndGroup w g).1.end_ = true) ∧
    (((TruncateEndLoc w e).2 = false ∨ locLe w.start_ e = true) →
      locLe (TruncateEndLoc w e).1.start_
        (TruncateEndLoc w e).1.end_ = true) := by
  refine ⟨?_, ?_, ?_⟩
  · cases h : locLt s w.start_ <;> simp [TruncateStart, h, hinv]
  · by_cases h : w.end_.group < g <;> simp [TruncateEndGroup, h, hinv]
  · cases h : locLt w.end_ e <;> simp [TruncateEndLoc, h, hinv]

/-- Witness for C1 (amended) at the valid window `[(0,0,0), (9,0,0)]` with
an in-window truncation `TruncateStart((3,0,0))`. -/
theorem C1_amended_witness :
    locLe (TruncateStart ⟨⟨0, 0, 0⟩, ⟨9, 0, 0⟩⟩ ⟨3, 0, 0⟩).1.start_
      (TruncateStart ⟨⟨0, 0, 0⟩, ⟨9, 0, 0⟩⟩ ⟨3, 0, 0⟩).1.end_ = true :=
  (C1_amended ⟨⟨0, 0, 0⟩, ⟨9, 0, 0⟩⟩ ⟨3, 0, 0⟩ ⟨1, 0, 0⟩ 4 (by decide)).1
    (Or.inr (by decide))

/-- Claim C2, as stated, is false on the code: from the window
`[(0,0,0), (5,3,7)]`, the group-granularity `TruncateEnd(5)` succeeds
(`5 ≤ end.group`) and replaces the end `(5,3,7)` with the group-maximal
sentinel, which is strictly larger, so `end` is not non-increasing. -/
theorem C2_counterexample :
    (TruncateEndGroup ⟨⟨0, 0, 0⟩, ⟨5, 3, 7⟩⟩ 5).2 = true ∧
    locLt (⟨⟨0, 0, 0⟩, ⟨5, 3, 7⟩⟩ : SubscribeWindow).end_
      (TruncateEndGroup ⟨⟨0, 0, 0⟩, ⟨5, 3, 7⟩⟩ 5).1.end_ = true := by
  decide

/-- Claim C2 (amended): across any sequence of truncation calls, `start` is
non-decreasing and `end.group` is non-increasing; any individual call that
returns false leaves the window unchanged.  (`end` itself can grow within
its group: a successful group-granularity `TruncateEnd` resets the finer
fields to the group-maximal sentinel.) -/
theorem C2_amended (w : SubscribeWindow) (ops : List TruncateOp)
    (op : TruncateOp) (hfail : (applyOp w op).2 = false) :
    locLe w.start_ (runOps w ops).start_ = true ∧
    (runOps w ops).end_.group ≤ w.end_.group ∧
    (applyOp w op).1 = w :=
  ⟨runOps_start_mono w ops, runOps_endgroup_mono w ops,
   applyOp_fail_unchanged w op hfail⟩

/-- Witness for C2 (amended): a concrete three-call sequence on the window
`[(1,0,0), (9,0,0)]`, and a failing call (`TruncateStart((0,0,0))`) that
leaves the window unchanged. -/
theorem C2_amended_witness :
    locLe (⟨⟨1, 0, 0⟩, ⟨9, 0, 0⟩⟩ : SubscribeWindow).start_
      (runOps ⟨⟨1, 0, 0⟩, ⟨9, 0, 0⟩⟩
        [TruncateOp.tStart ⟨2, 1, 0⟩, TruncateOp.tEndGroup 7,
         TruncateOp.tEndLoc ⟨6, 0, 0⟩]).start_ = true ∧
    (runOps ⟨⟨1, 0, 0⟩, ⟨9, 0, 0⟩⟩
        [TruncateOp.tStart ⟨2, 1, 0⟩, TruncateOp.tEndGroup 7,
         TruncateOp.tEndLoc ⟨6, 0, 0⟩]).end_.group ≤
      (⟨⟨1, 0, 0⟩, ⟨9, 0, 0⟩⟩ : SubscribeWindow).end_.group ∧
    (applyOp ⟨⟨1, 0, 0⟩, ⟨9, 0, 0⟩⟩ (TruncateOp.tStart ⟨0, 0, 0⟩)).1 =
      ⟨⟨1, 0, 0⟩, ⟨9, 0, 0⟩⟩ :=
  C2_amended ⟨⟨1, 0, 0⟩, ⟨9, 0, 0⟩⟩
    [TruncateOp.tStart ⟨2, 1, 0⟩, TruncateOp.tEndGroup 7,
     TruncateOp.tEndLoc ⟨6, 0, 0⟩]
    (TruncateOp.tStart ⟨0, 0, 0⟩) (by decide)

theorem lookupA_updateKey_insertIfAbsent {α : Type} (g : Nat) (x d : α)
    (l : List (Nat × α)) :
    lookupA (updateKey g x (insertIfAbsent g d l)) g = some x := by
  cases hg : lookupA l g with
  | none =>
    rw [insertIfAbsent, hg]
    exact lookupA_updateKey_self g x d _ (lookupA_insertSorted_self g d l hg)
  | some grp =>
    rw [insertIfAbsent, hg]
    exact lookupA_updateKey_self g x grp l hg

theorem AddStream_recorded (m : SendStreamMap) (sequence : Location)
    (sid : Nat) (g sg ob : Nat)
    (hidx : ReducedSequenceIndex sequence m.forwarding_preference = ⟨g, sg, ob⟩)
    (h : recordedAt m g sg = none) :
    recordedAt (AddStream m sequence sid).1 g sg = some sid := by
  rw [AddStream_absent m sequence sid g sg ob hidx h]
  simp only [recordedAt]
  rw [lookupA_updateKey_insertIfAbsent]
  simp only [Option.some_bind]
  exact lookupA_insertSorted_self sg sid _ (recordedAt_none_inner m g sg h)

theorem add_remove_same_key (m : SendStreamMap) (sequence : Location)
    (sid : Nat) (g sg ob : Nat)
    (hidx : ReducedSequenceIndex sequence m.forwarding_preference = ⟨g, sg, ob⟩)
    (h : recordedAt m g sg = none) :
    (RemoveStream (AddStream m sequence sid).1 sequence sid).2 = false ∧
    recordedAt (RemoveStream (AddStream m sequence sid).1 sequence sid).1
      g sg = none ∧
    (RemoveStream (AddStream m sequence sid).1
      sequence sid).1.forwarding_preference = m.forwarding_preference := by
  have hinner := recordedAt_none_inner m g sg h
  have hadd1 : (AddStream m sequence sid).1 =
      { m with send_streams :=
          (updateKey g
            (insertSorted sg sid ((lookupA m.send_streams g).getD []))
            (insertIfAbsent g [] m.send_streams)) } := by
    rw [AddStream_absent m sequence sid g sg ob hidx h]
  have hlook1 : lookupA
      (updateKey g
        (insertSorted sg sid ((lookupA m.send_streams g).getD []))
        (insertIfAbsent g [] m.send_streams)) g =
      some (insertSorted sg sid ((lookupA m.send_streams g).getD [])) :=
    lookupA_updateKey_insertIfAbsent g _ [] m.send_streams
  have hlook2 : lookupA
      (insertSorted sg sid ((lookupA m.send_streams g).getD [])) sg =
      some sid :=
    lookupA_insertSorted_self sg sid _ hinner
  rw [hadd1]
  rw [RemoveStream_found
    { m with send_streams :=
        (updateKey g
          (insertSorted sg sid ((lookupA m.send_streams g).getD []))
          (insertIfAbsent g [] m.send_streams)) }
    sequence sid g sg ob
    (insertSorted sg sid ((lookupA m.send_streams g).getD []))
    hidx hlook1 hlook2]
  refine ⟨rfl, ?_, rfl⟩
  simp only [recordedAt]
  rw [eraseKey_insertSorted sg sid _ hinner]
  rw [lookupA_updateKey_self g _ _ _ hlook1]
  simp only [Option.some_bind]
  exact hinner

theorem mem_values_iff_lookup {α : Type} (grp : List (Nat × α))
    (hn : keysNodup grp) (s : α) :
    s ∈ grp.map Prod.snd ↔ ∃ sg, lookupA grp sg = some s := by
  constructor
  · intro hs
    obtain ⟨⟨k, v⟩, hmem, rfl⟩ := List.mem_map.mp hs
    exact ⟨k, lookupA_mem hn hmem⟩
  · rintro ⟨sg, hl⟩
    exact List.mem_map.mpr ⟨(sg, s), mem_of_lookupA hl, rfl⟩

theorem lookupA_eq_none_iff {α : Type} (l : List (Nat × α)) (k : Nat) :
    lookupA l k = none ↔ k ∉ l.map Prod.fst := by
  induction l with
  | nil => simp [lookupA]
  | cons hd tl ih =>
    obtain ⟨k1, v1⟩ := hd
    by_cases hk : k1 = k
    · simp [lookupA, hk]
    · have hne : (k1 == k) = false := by simp [hk]
      simp [lookupA, hne, ih, hk]
      omega

theorem keys_updateKey {α : Type} (k : Nat) (v : α) (l : List (Nat × α)) :
    (updateKey k v l).map Prod.fst = l.map Prod.fst := by
  induction l with
  | nil => rfl
  | cons hd tl ih =>
    obtain ⟨k1, v1⟩ := hd
    by_cases hk : k = k1
    · simp [updateKey, hk]
    · have hne : (k == k1) = false := by simp [hk]
      simp [updateKey, hne, ih]

theorem mem_keys_insertSorted {α : Type} (x k : Nat) (v : α)
    (l : List (Nat × α)) (h : x ∈ (insertSorted k v l).map Prod.fst) :
    x = k ∨ x ∈ l.map Prod.fst := by
  induction l with
  | nil =>
    simp [insertSorted] at h
    exact Or.inl h
  | cons hd tl ih =>
    obtain ⟨k1, v1⟩ := hd
    rw [insertSorted] at h
    by_cases hlt : k < k1
    · simp [hlt] at h
      rcases h with h | h | h
      · exact Or.inl h
      · exact Or.inr (by simp [h])
      · exact Or.inr (by simp [h])
    · by_cases hk : k = k1
      · have hbeq : (k == k1) = true := by simp [hk]
        simp [hlt, hbeq] at h
        rcases h with h | h
        · exact Or.inr (by simp [h])
        · exact Or.inr (by simp [h])
      · have hbeq : (k == k1) = false := by simp [hk]
        simp [hlt, hbeq] at h
        rcases h with h | h
        · exact Or.inr (by simp [h])
        · rcases ih (by simpa using h) with h2 | h2
          · exact Or.inl h2
          · exact Or.inr (by simp [h2])

theorem keysNodup_insertSorted {α : Type} (k : Nat) (v : α)
    (l : List (Nat × α)) (hn : keysNodup l) (h : lookupA l k = none) :
    keysNodup (insertSorted k v l) := by
  induction l with
  | nil => simp [insertSorted, keysNodup]
  | cons hd tl ih =>
    obtain ⟨k1, v1⟩ := hd
    rw [lookupA] at h
    by_cases hk : k1 = k
    · simp [hk] at h
    · have hbeq : (k1 == k) = false := by simp [hk]
      simp only [hbeq, Bool.false_eq_true, if_false] at h
      rw [keysNodup, List.map_cons, List.nodup_cons] at hn
      obtain ⟨hk1, htl⟩ := hn
      rw [insertSorted]
      by_cases hlt : k < k1
      · rw [if_pos hlt]
        rw [keysNodup, List.map_cons, List.map_cons, List.nodup_cons]
        refine ⟨?_, ?_⟩
        · simp
          constructor
          · omega
          · intro x hx
            exact (lookupA_eq_none_iff tl k).mp h
              (List.mem_map.mpr ⟨(k, x), hx, rfl⟩)
        · rw [List.nodup_cons]
          exact ⟨hk1, htl⟩
      · have hbeq2 : (k == k1) = false := by
          simp
          omega
        rw [if_neg hlt, hbeq2]
        simp only [Bool.false_eq_true, if_neg (by simp : ¬False)]
        rw [keysNodup, List.map_cons, List.nodup_cons]
        refine ⟨?_, ih htl h⟩
        intro hmem
        rcases mem_keys_insertSorted k1 k v tl hmem with h2 | h2
        · exact hk h2
        · exact hk1 h2

theorem eraseKey_sublist {α : Type} (k : Nat) (l : List (Nat × α)) :
    (eraseKey k l).Sublist l := by
  induction l with
  | nil => simp [eraseKey]
  | cons hd tl ih =>
    obtain ⟨k1, v1⟩ := hd
    rw [eraseKey]
    by_cases hk : k = k1
    · have hbeq : (k == k1) = true := by simp [hk]
      rw [hbeq]
      simp only [if_pos rfl]
      exact List.sublist_cons_self (k1, v1) tl
    · have hbeq : (k == k1) = false := by simp [hk]
      rw [hbeq]
      simp only [Bool.false_eq_true, if_neg (by simp : ¬False)]
      exact List.Sublist.cons₂ (k1, v1) ih

theorem keysNodup_eraseKey {α : Type} (k : Nat) (l : List (Nat × α))
    (hn : keysNodup l) : keysNodup (eraseKey k l) :=
  List.Nodup.sublist (List.Sublist.map Prod.fst (eraseKey_sublist k l)) hn

theorem mem_updateKey {α : Type} (p : Nat × α) (k : Nat) (v : α)
    (l : List (Nat × α)) (h : p ∈ updateKey k v l) : p ∈ l ∨ p.2 = v := by
  induction l with
  | nil => simp [updateKey] at h
  | cons hd tl ih =>
    obtain ⟨k1, v1⟩ := hd
    rw [updateKey] at h
    by_cases hk : k = k1
    · have hbeq : (k == k1) = true := by simp [hk]
      rw [hbeq] at h
      simp only [if_pos rfl] at h
      rcases List.mem_cons.mp h with h2 | h2
      · exact Or.inr (by simp [h2])
      · exact Or.inl (List.mem_cons_of_mem _ h2)
    · have hbeq : (k == k1) = false := by simp [hk]
      rw [hbeq] at h
      simp only [Bool.false_eq_true, if_neg (by simp : ¬False)] at h
      rcases List.mem_cons.mp h with h2 | h2
      · exact Or.inl (by simp [h2])
      · rcases ih h2 with h3 | h3
        · exact Or.inl (List.mem_cons_of_mem _ h3)
        · exact Or.inr h3

theorem mem_insertSorted {α : Type} (p : Nat × α) (k : Nat) (v : α)
    (l : List (Nat × α)) (h : p ∈ insertSorted k v l) :
    p = (k, v) ∨ p ∈ l := by
  induction l with
  | nil => simpa [insertSorted] using h
  | cons hd tl ih =>
    obtain ⟨k1, v1⟩ := hd
    rw [insertSorted] at h
    by_cases hlt : k < k1
    · rw [if_pos hlt] at h
      rcases List.mem_cons.mp h with h2 | h2
      · exact Or.inl h2
      · exact Or.inr h2
    · rw [if_neg hlt] at h
      by_cases hk : k = k1
      · have hbeq : (k == k1) = true := by simp [hk]
        rw [hbeq] at h
        simp only [if_pos rfl] at h
        exact Or.inr h
      · have hbeq : (k == k1) = false := by simp [hk]
        rw [hbeq] at h
        simp only [Bool.false_eq_true, if_neg (by simp : ¬False)] at h
        rcases List.mem_cons.mp h with h2 | h2
        · exact Or.inr (by simp [h2])
        · rcases ih h2 with h3 | h3
          · exact Or.inl h3
          · exact Or.inr (List.mem_cons_of_mem _ h3)

/-- Full well-formedness of a `SendStreamMap` model state: distinct group
keys, and distinct subgroup keys within every group (the invariant
`std::map` provides by construction). -/
def mapWF (m : SendStreamMap) : Prop :=
  keysNodup m.send_streams ∧ ∀ p ∈ m.send_streams, keysNodup p.2

theorem insertIfAbsent_wf {α : Type} (k : Nat) (v : α) (l : List (Nat × α))
    (hn : keysNodup l) : keysNodup (insertIfAbsent k v l) := by
  rw [insertIfAbsent]
  cases hg : lookupA l k with
  | none => exact keysNodup_insertSorted k v l hn hg
  | some w => exact hn

theorem mem_insertIfAbsent {α : Type} (p : Nat × α) (k : Nat) (v : α)
    (l : List (Nat × α)) (h : p ∈ insertIfAbsent k v l) :
    p = (k, v) ∨ p ∈ l := by
  rw [insertIfAbsent] at h
  cases hg : lookupA l k with
  | none =>
    rw [hg] at h
    exact mem_insertSorted p k v l h
  | some w =>
    rw [hg] at h
    exact Or.inr h

theorem AddStream_preserves_wf (m : SendStreamMap) (sequence : Location)
    (sid : Nat) (hwf : mapWF m) : mapWF (AddStream m sequence sid).1 := by
  obtain ⟨h1, h2⟩ := hwf
  constructor
  · rw [AddStream]
    simp only []
    rw [keysNodup, keys_updateKey]
    exact insertIfAbsent_wf _ [] m.send_streams h1
  · intro p hp
    rw [AddStream] at hp
    simp only [] at hp
    rcases mem_updateKey p _ _ _ hp with hmem | hval
    · rcases mem_insertIfAbsent p _ [] _ hmem with h3 | h3
      · rw [h3]
        simp [keysNodup]
      · exact h2 p h3
    · rw [hval]
      have hgrp : keysNodup ((lookupA
          (insertIfAbsent
            (ReducedSequenceIndex sequence m.forwarding_preference).group []
            m.send_streams)
          (ReducedSequenceIndex sequence m.forwarding_preference).group).getD
          []) := by
        cases hg : lookupA
            (insertIfAbsent
              (ReducedSequenceIndex sequence m.forwarding_preference).group []
              m.send_streams)
            (ReducedSequenceIndex sequence m.forwarding_preference).group with
        | none => simp [keysNodup]
        | some grp =>
          simp only [Option.getD_some]
          rcases mem_insertIfAbsent _ _ [] _ (mem_of_lookupA hg) with h3 | h3
          · rw [Prod.mk.injEq] at h3
            rw [h3.2]
            simp [keysNodup]
          · exact h2 _ h3
      exact insertIfAbsent_wf _ sid _ hgrp

theorem RemoveStream_preserves_wf (m : SendStreamMap) (sequence : Location)
    (sid : Nat) (hwf : mapWF m) : mapWF (RemoveStream m sequence sid).1 := by
  obtain ⟨h1, h2⟩ := hwf
  have hidx : ReducedSequenceIndex sequence m.forwarding_preference =
      ⟨(ReducedSequenceIndex sequence m.forwarding_preference).group,
       (ReducedSequenceIndex sequence m.forwarding_preference).subgroup,
       (ReducedSequenceIndex sequence m.forwarding_preference).object⟩ := rfl
  cases hg : lookupA m.send_streams
      (ReducedSequenceIndex sequence m.forwarding_preference).group with
  | none =>
    rw [RemoveStream_missing m sequence sid _ _ _ hidx
      (by simp [recordedAt, hg])]
    exact ⟨h1, h2⟩
  | some grp =>
    cases hsg : lookupA grp
        (ReducedSequenceIndex sequence m.forwarding_preference).subgroup with
    | none =>
      rw [RemoveStream_missing m sequence sid _ _ _ hidx
        (by simp [recordedAt, hg, hsg])]
      exact ⟨h1, h2⟩
    | some sid2 =>
      by_cases hne : sid2 = sid
      · subst hne
        rw [RemoveStream_found m sequence sid2 _ _ _ grp hidx hg hsg]
        constructor
        · rw [keysNodup, keys_updateKey]
          exact h1
        · intro p hp
          rcases mem_updateKey p _ _ _ hp with hmem | hval
          · exact h2 p hmem
          · rw [hval]
            exact keysNodup_eraseKey _ grp (h2 _ (mem_of_lookupA hg))
      · rw [RemoveStream_mismatch m sequence sid _ _ _ sid2 hidx
          (by simp [recordedAt, hg, hsg]) hne]
        exact ⟨h1, h2⟩

/-- Claim C4, as stated, is false on the code: only `GetStreamForSequence`
checks the forwarding preference (and only via a debug check).  On a map
constructed with the Datagram preference, `AddStream` performs the insertion
normally and reports nothing through the fatal-invariant channel, and the
inserted entry is subsequently visible. -/
theorem C4_counterexample :
    (AddStream ⟨MoqtForwardingPreference.kDatagram, []⟩ ⟨0, 0, 0⟩ 5).2 =
      false ∧
    GetStreamForSequence
      (AddStream ⟨MoqtForwardingPreference.kDatagram, []⟩ ⟨0, 0, 0⟩ 5).1
      ⟨0, 0, 0⟩ = some 5 := by
  decide

/-- Claim C4 (amended): under the Datagram preference only
`GetStreamForSequence` reports through the fatal-invariant (debug-check)
channel, and it still performs the lookup; `AddStream` and `RemoveStream`
perform no preference check at all and execute normally using the Datagram
reduction `(group, 0, object)` (keyed on `(group, 0)`). -/
theorem C4_amended (m : SendStreamMap) (seq : Location) (sid : Nat)
    (hp : m.forwarding_preference = MoqtForwardingPreference.kDatagram)
    (habs : recordedAt m seq.group 0 = none) :
    getStreamDCheckViolated m = true ∧
    (AddStream m seq sid).2 = false ∧
    GetStreamForSequence (AddStream m seq sid).1 seq = some sid ∧
    (RemoveStream (AddStream m seq sid).1 seq sid).2 = false := by
  have hidx : ReducedSequenceIndex seq m.forwarding_preference =
      ⟨seq.group, 0, seq.object⟩ := by
    rw [hp]
    rfl
  refine ⟨?_, ?_, ?_, ?_⟩
  · rw [getStreamDCheckViolated, hp]
    rfl
  · exact (AddStream_flag_iff m seq sid seq.group 0 seq.object hidx).mpr habs
  · rw [GetStreamForSequence_eq_recordedAt, AddStream_pref, hidx]
    exact AddStream_recorded m seq sid seq.group 0 seq.object hidx habs
  · exact (add_remove_same_key m seq sid seq.group 0 seq.object hidx habs).1

/-- Witness for C4 (amended) on a fresh Datagram map. -/
theorem C4_amended_witness :
    getStreamDCheckViolated ⟨MoqtForwardingPreference.kDatagram, []⟩ = true ∧
    (AddStream ⟨MoqtForwardingPreference.kDatagram, []⟩ ⟨1, 2, 3⟩ 9).2 =
      false ∧
    GetStreamForSequence
      (AddStream ⟨MoqtForwardingPreference.kDatagram, []⟩ ⟨1, 2, 3⟩ 9).1
      ⟨1, 2, 3⟩ = some 9 ∧
    (RemoveStream
      (AddStream ⟨MoqtForwardingPreference.kDatagram, []⟩ ⟨1, 2, 3⟩ 9).1
      ⟨1, 2, 3⟩ 9).2 = false :=
  C4_amended ⟨MoqtForwardingPreference.kDatagram, []⟩ ⟨1, 2, 3⟩ 9 rfl
    (by decide)

/-- Claim C5: after a successful `AddStream(L1, S)`, a second
`AddStream(L2, S2)` whose argument reduces to the same index fires the
bug channel regardless of `S2`, leaves the map unchanged, and the previously
recorded identifier `S` stays the one returned for `L1`. -/
theorem C5_no_duplicate (m : SendStreamMap) (L1 L2 : Location) (S S2 : Nat)
    (hsucc : (AddStream m L1 S).2 = false)
    (hred : ReducedSequenceIndex L2 m.forwarding_preference =
      ReducedSequenceIndex L1 m.forwarding_preference) :
    (AddStream (AddStream m L1 S).1 L2 S2).2 = true ∧
    (AddStream (AddStream m L1 S).1 L2 S2).1 = (AddStream m L1 S).1 ∧
    GetStreamForSequence (AddStream (AddStream m L1 S).1 L2 S2).1 L1 =
      some S := by
  have hidx : ReducedSequenceIndex L1 m.forwarding_preference =
      ⟨(ReducedSequenceIndex L1 m.forwarding_preference).group,
       (ReducedSequenceIndex L1 m.forwarding_preference).subgroup,
       (ReducedSequenceIndex L1 m.forwarding_preference).object⟩ := rfl
  have hnone := (AddStream_flag_iff m L1 S _ _ _ hidx).mp hsucc
  have hrec1 := AddStream_recorded m L1 S _ _ _ hidx hnone
  have hidx2 : ReducedSequenceIndex L2
      (AddStream m L1 S).1.forwarding_preference =
      ⟨(ReducedSequenceIndex L1 m.forwarding_preference).group,
       (ReducedSequenceIndex L1 m.forwarding_preference).subgroup,
       (ReducedSequenceIndex L1 m.forwarding_preference).object⟩ := by
    rw [AddStream_pref, hred]
  have hpres := AddStream_present (AddStream m L1 S).1 L2 S2 _ _ _ S hidx2
    hrec1
  refine ⟨by rw [hpres], by rw [hpres], ?_⟩
  rw [hpres, GetStreamForSequence_eq_recordedAt]
  exact hrec1

/-- Witness for C5: fresh Subgroup map, `AddStream((1,2,0), 7)` then
`AddStream((1,2,5), 8)` (same group and subgroup). -/
theorem C5_no_duplicate_witness :
    (AddStream
      (AddStream ⟨MoqtForwardingPreference.kSubgroup, []⟩ ⟨1, 2, 0⟩ 7).1
      ⟨1, 2, 5⟩ 8).2 = true ∧
    (AddStream
      (AddStream ⟨MoqtForwardingPreference.kSubgroup, []⟩ ⟨1, 2, 0⟩ 7).1
      ⟨1, 2, 5⟩ 8).1 =
      (AddStream ⟨MoqtForwardingPreference.kSubgroup, []⟩ ⟨1, 2, 0⟩ 7).1 ∧
    GetStreamForSequence
      (AddStream
        (AddStream ⟨MoqtForwardingPreference.kSubgroup, []⟩ ⟨1, 2, 0⟩ 7).1
        ⟨1, 2, 5⟩ 8).1 ⟨1, 2, 0⟩ = some 7 :=
  C5_no_duplicate ⟨MoqtForwardingPreference.kSubgroup, []⟩ ⟨1, 2, 0⟩
    ⟨1, 2, 5⟩ 7 8 (by decide) (by decide)

/-- Claim C6: on a Subgroup map, `AddStream(L, S)` (when it succeeds, i.e.
fires no bug) followed by `RemoveStream(L, S)` leaves
`GetStreamForSequence(L)` absent; `RemoveStream` on an untracked key, or
with a stream id different from the recorded one, fires the
fatal-invariant channel and leaves the map unchanged. -/
theorem C6_removal_symmetry (m : SendStreamMap) (L : Location) (S W : Nat)
    (hpref : m.forwarding_preference = MoqtForwardingPreference.kSubgroup) :
    ((AddStream m L S).2 = false →
      GetStreamForSequence (RemoveStream (AddStream m L S).1 L S).1 L =
        none) ∧
    (recordedAt m L.group L.subgroup = none →
      RemoveStream m L S = (m, true)) ∧
    (recordedAt m L.group L.subgroup = some W → W ≠ S →
      RemoveStream m L S = (m, true)) := by
  have hidx : ReducedSequenceIndex L m.forwarding_preference =
      ⟨L.group, L.subgroup, 0⟩ := by
    rw [hpref]
    rfl
  refine ⟨?_, ?_, ?_⟩
  · intro hsucc
    have hnone := (AddStream_flag_iff m L S L.group L.subgroup 0 hidx).mp
      hsucc
    obtain ⟨h1, h2, h3⟩ :=
      add_remove_same_key m L S L.group L.subgroup 0 hidx hnone
    rw [GetStreamForSequence_eq_recordedAt, h3, hidx]
    exact h2
  · intro hmiss
    exact RemoveStream_missing m L S L.group L.subgroup 0 hidx hmiss
  · intro hrec hne
    exact RemoveStream_mismatch m L S L.group L.subgroup 0 W hidx hrec hne

/-- Witness for C6: add-then-remove of `((1,2,0), 7)` on a fresh Subgroup
map leaves the lookup absent, and removing from an untracked key on a
one-entry map fires the channel and changes nothing. -/
theorem C6_removal_symmetry_witness :
    GetStreamForSequence
      (RemoveStream
        (AddStream ⟨MoqtForwardingPreference.kSubgroup, []⟩ ⟨1, 2, 0⟩ 7).1
        ⟨1, 2, 0⟩ 7).1 ⟨1, 2, 0⟩ = none ∧
    RemoveStream ⟨MoqtForwardingPreference.kSubgroup, [(1, [(2, 7)])]⟩
      ⟨3, 0, 0⟩ 7 =
      (⟨MoqtForwardingPreference.kSubgroup, [(1, [(2, 7)])]⟩, true) :=
  ⟨(C6_removal_symmetry ⟨MoqtForwardingPreference.kSubgroup, []⟩ ⟨1, 2, 0⟩
      7 0 rfl).1 (by decide),
   (C6_removal_symmetry ⟨MoqtForwardingPreference.kSubgroup,
      [(1, [(2, 7)])]⟩ ⟨3, 0, 0⟩ 7 0 rfl).2.1 (by decide)⟩

/-- Claim C7: on a Subgroup map, `GetStreamForSequence(L)` returns exactly
the entry recorded under the `(group, subgroup)` key of the reduction of
`L` (it is a pure function of the map, so it modifies nothing); in the
concrete scenario, after `AddStream((1,2,0), 7)` on a fresh map,
`GetStreamForSequence((1,2,99))` returns 7. -/
theorem C7_get_stream (m : SendStreamMap) (L : Location)
    (hpref : m.forwarding_preference = MoqtForwardingPreference.kSubgroup) :
    GetStreamForSequence m L = recordedAt m L.group L.subgroup ∧
    GetStreamForSequence
      (AddStream ⟨MoqtForwardingPreference.kSubgroup, []⟩ ⟨1, 2, 0⟩ 7).1
      ⟨1, 2, 99⟩ = some 7 := by
  refine ⟨?_, by decide⟩
  rw [GetStreamForSequence_eq_recordedAt, hpref]
  rfl

/-- Witness for C7 on a concrete one-entry Subgroup map. -/
theorem C7_get_stream_witness :
    GetStreamForSequence ⟨MoqtForwardingPreference.kSubgroup,
      [(1, [(2, 7)])]⟩ ⟨1, 2, 99⟩ =
      recordedAt ⟨MoqtForwardingPreference.kSubgroup, [(1, [(2, 7)])]⟩ 1 2 :=
  (C7_get_stream ⟨MoqtForwardingPreference.kSubgroup, [(1, [(2, 7)])]⟩
    ⟨1, 2, 99⟩ rfl).1

/-- Claim C9: `GetStreamsForGroup(g)` returns exactly the stream ids
recorded under group `g` (membership coincides with the existence of a
recorded `(g, sg)` entry, for any map whose per-group tables have distinct
subgroup keys, as all states built by the operations do), and it is the
empty sequence whenever no entry is recorded under `g`; it is a pure
function of the map, so it modifies nothing. -/
theorem C9_group_isolation (m : SendStreamMap) (g : Nat)
    (hwf : ∀ p ∈ m.send_streams, keysNodup p.2) :
    (∀ s, s ∈ GetStreamsForGroup m g ↔ ∃ sg, recordedAt m g sg = some s) ∧
    ((∀ sg, recordedAt m g sg = none) → GetStreamsForGroup m g = []) := by
  cases hg : lookupA m.send_streams g with
  | none =>
    constructor
    · intro s
      simp [GetStreamsForGroup, hg, recordedAt]
    · intro _
      simp [GetStreamsForGroup, hg]
  | some grp =>
    have hn : keysNodup grp := hwf (g, grp) (mem_of_lookupA hg)
    have hiff : ∀ s, s ∈ GetStreamsForGroup m g ↔
        ∃ sg, recordedAt m g sg = some s := by
      intro s
      simp only [GetStreamsForGroup, hg, recordedAt, Option.some_bind]
      exact mem_values_iff_lookup grp hn s
    refine ⟨hiff, ?_⟩
    intro hnone
    rw [List.eq_nil_iff_forall_not_mem]
    intro x hx
    obtain ⟨sg, hrec⟩ := (hiff x).mp hx
    rw [hnone sg] at hrec
    cases hrec

/-- Witness for C9 on a concrete one-entry map and on an unknown group. -/
theorem C9_group_isolation_witness :
    (7 ∈ GetStreamsForGroup
        ⟨MoqtForwardingPreference.kSubgroup, [(1, [(2, 7)])]⟩ 1 ↔
      ∃ sg, recordedAt ⟨MoqtForwardingPreference.kSubgroup, [(1, [(2, 7)])]⟩
        1 sg = some 7) ∧
    GetStreamsForGroup ⟨MoqtForwardingPreference.kSubgroup, [(1, [(2, 7)])]⟩
      5 = [] :=
  ⟨(C9_group_isolation ⟨MoqtForwardingPreference.kSubgroup,
      [(1, [(2, 7)])]⟩ 1 (by decide)).1 7,
   (C9_group_isolation ⟨MoqtForwardingPreference.kSubgroup,
      [(1, [(2, 7)])]⟩ 5 (by decide)).2 (fun sg => by simp [recordedAt, lookupA])⟩

end Moqt
